import Mathlib

/-!
Verification of the publication-list component and the BibTeX parsing
utility of a personal academic portfolio site.

The publication list component (`PublicationsList.tsx`) keeps the parsed
publications in an immutable array and derives, via pure computations:
the distinct year / type filter options and the filtered sub-list shown
to the user.  These computations are embedded below as Lean functions
over a `Publication` structure mirroring the fields the component reads.

Machine strings are modelled as Lean `String` (lists of characters);
JavaScript `toLowerCase` is modelled by per-character lowering and
`String.prototype.includes` by the sublist-as-contiguous-segment
relation on the character lists.
-/

/-- One author entry, as consumed by the component (`a.name`). -/
structure Author where
  name : String
deriving DecidableEq, Repr

/-- The publication record as the component reads it.  The component
accesses `pub.title` without optional chaining, so `title` is a plain
string here; `journal` and `conference` are read with `?.` and are
optional; `year` is a number and `type` a string tag. -/
structure Publication where
  id : String
  type : String
  title : String
  journal : Option String
  conference : Option String
  description : Option String
  abstract : Option String
  bibtex : Option String
  authors : List Author
  year : Int
  hidden_bib : Bool
deriving DecidableEq, Repr

/-- The year selection state: `'all'` or a concrete year. -/
inductive YearSel where
  | all
  | year (y : Int)
deriving DecidableEq, Repr

/-- The type selection state: `'all'` or a concrete type tag. -/
inductive TypeSel where
  | all
  | ty (t : String)
deriving DecidableEq, Repr

/-- JavaScript `s.toLowerCase()`: lower each character. -/
def jsToLower (s : String) : String := String.mk (s.data.map Char.toLower)

/-- JavaScript `s.includes(q)`: `q` occurs contiguously in `s`. -/
def includes (s q : String) : Bool := decide (q.data <:+: s.data)

/-- The `pub.journal?.toLowerCase().includes(...)` pattern: an absent
field short-circuits to a falsy value. -/
def optIncludes (field : Option String) (q : String) : Bool :=
  match field with
  | none => false
  | some s => includes (jsToLower s) (jsToLower q)

/-- The `matchesSearch` disjunction of the component (line 55-59):
title, any author name, journal, conference. -/
def matchesSearch (pub : Publication) (q : String) : Bool :=
  includes (jsToLower pub.title) (jsToLower q)
    || pub.authors.any (fun a => includes (jsToLower a.name) (jsToLower q))
    || optIncludes pub.journal q
    || optIncludes pub.conference q

/-- `selectedYear === 'all' || pub.year === selectedYear` (line 61). -/
def matchesYear (pub : Publication) (sel : YearSel) : Bool :=
  match sel with
  | .all => true
  | .year y => pub.year == y

/-- `selectedType === 'all' || pub.type === selectedType` (line 62). -/
def matchesType (pub : Publication) (sel : TypeSel) : Bool :=
  match sel with
  | .all => true
  | .ty t => pub.type == t

/-- `filteredPublications` (lines 53-66): keep the records matching all
three criteria. -/
def filteredPublications (pubs : List Publication) (q : String)
    (ysel : YearSel) (tsel : TypeSel) : List Publication :=
  pubs.filter (fun pub =>
    matchesSearch pub q && matchesYear pub ysel && matchesType pub tsel)

/-- `years` (lines 42-45): distinct years of the dataset, sorted
descending (the comparator `(a, b) => b - a`). -/
def years (pubs : List Publication) : List Int :=
  ((pubs.map Publication.year).dedup).insertionSort (· ≥ ·)

/-- JavaScript default string comparison (`Array.prototype.sort` with no
comparator): lexicographic on character code units. -/
def jsStrLtL : List Char → List Char → Bool
  | [], [] => false
  | [], _ :: _ => true
  | _ :: _, [] => false
  | a :: as, b :: bs =>
    if a.toNat < b.toNat then true
    else if b.toNat < a.toNat then false
    else jsStrLtL as bs

/-- Strict string order on `String`, as `Array.prototype.sort` uses. -/
def jsStrLt (a b : String) : Bool := jsStrLtL a.data b.data

/-- `types` (lines 47-50): distinct type tags of the dataset, sorted
ascending by the default string comparison. -/
def types (pubs : List Publication) : List String :=
  ((pubs.map Publication.type).dedup).insertionSort
    (fun a b => jsStrLt b a = false)

/-! ### The data model of spec §3, where `title` is optional

Spec §3 declares `title`, `journal` and `conference` all optional.  The
component reads `pub.title.toLowerCase()` without optional chaining, so
evaluating the search predicate on a record with an absent title throws
a `TypeError`; `journal` and `conference` are read with `?.` and are
safe.  A throwing evaluation is modelled by `Option`: `none` is the
thrown error. -/

/-- A publication record of the §3 data model: same fields, but `title`
may be absent. -/
structure PublicationOpt where
  id : String
  type : String
  title : Option String
  journal : Option String
  conference : Option String
  description : Option String
  abstract : Option String
  bibtex : Option String
  authors : List Author
  year : Int
  hidden_bib : Bool
deriving DecidableEq, Repr

/-- The search predicate evaluated on a §3 record: reading
`pub.title.toLowerCase()` on an absent title throws (`none`). -/
def matchesSearchOpt (pub : PublicationOpt) (q : String) : Option Bool :=
  match pub.title with
  | none => none
  | some t =>
    some (includes (jsToLower t) (jsToLower q)
      || pub.authors.any (fun a => includes (jsToLower a.name) (jsToLower q))
      || optIncludes pub.journal q
      || optIncludes pub.conference q)

/-- Year criterion on a §3 record. -/
def matchesYearOpt (pub : PublicationOpt) (sel : YearSel) : Bool :=
  match sel with
  | .all => true
  | .year y => pub.year == y

/-- Type criterion on a §3 record. -/
def matchesTypeOpt (pub : PublicationOpt) (sel : TypeSel) : Bool :=
  match sel with
  | .all => true
  | .ty t => pub.type == t

/-- `filteredPublications` over §3 records.  `Array.prototype.filter`
evaluates the predicate left to right; a throw aborts the whole
computation (`none`). -/
def filteredPublicationsOpt (pubs : List PublicationOpt) (q : String)
    (ysel : YearSel) (tsel : TypeSel) : Option (List PublicationOpt) :=
  match pubs with
  | [] => some []
  | pub :: rest =>
    match matchesSearchOpt pub q with
    | none => none
    | some ms =>
      match filteredPublicationsOpt rest q ysel tsel with
      | none => none
      | some tail =>
        some (if ms && matchesYearOpt pub ysel && matchesTypeOpt pub tsel
          then pub :: tail else tail)

/-! ### The component state and its pure recomputation (spec §5)

The component keeps the loaded `publications` array plus the reactive
inputs; `years`, `types` and `filteredPublications` are recomputed as
pure derivations (`useMemo`) whenever an input changes.  `recompute`
performs one such derivation step. -/

/-- The reactive state of `PublicationsList`: the loaded dataset, the
filter inputs, and the derived lists. -/
structure ComponentState where
  publications : List Publication
  searchQuery : String
  selectedYear : YearSel
  selectedType : TypeSel
  yearOptions : List Int
  typeOptions : List String
  filtered : List Publication
deriving Repr

/-- One derivation step: recompute the three `useMemo` values from the
current inputs.  The dataset itself is only read. -/
def recompute (s : ComponentState) : ComponentState :=
  { s with
    yearOptions := years s.publications
    typeOptions := types s.publications
    filtered := filteredPublications s.publications s.searchQuery
      s.selectedYear s.selectedType }

/-! ### The rendered publication entry (JSX lines 195-276)

Each displayed record renders a title, an author line, a venue line,
then optionally a description, an abstract toggle button, a BibTeX
toggle button, an expanded abstract panel and an expanded BibTeX panel.
JSX conditional rendering with `&&` drops the element when the guard is
falsy; an absent or empty string field is falsy. -/

/-- The UI elements one publication entry can render. -/
inductive UIElement where
  | titleEl (s : String)
  | authorsEl (s : String)
  | venueEl (j c : Option String) (y : Int)
  | descriptionEl (s : String)
  | abstractButton
  | bibtexButton
  | abstractPanel (s : String)
  | bibtexPanel (s : String)
deriving DecidableEq, Repr

/-- JavaScript truthiness of an optional string: absent and empty are
falsy. -/
def truthy (o : Option String) : Bool :=
  match o with
  | none => false
  | some s => !(s == "")

/-- The list of elements rendered for one record, given the two
expansion states (lines 197-275 of the component). -/
def renderEntry (pub : Publication)
    (expandedAbstractId expandedBibtexId : Option String) : List UIElement :=
  [UIElement.titleEl pub.title,
   UIElement.authorsEl (String.intercalate ", " (pub.authors.map Author.name)),
   UIElement.venueEl pub.journal pub.conference pub.year]
  ++ (if truthy pub.description then
        [UIElement.descriptionEl (pub.description.getD "")] else [])
  ++ (if truthy pub.abstract then [UIElement.abstractButton] else [])
  ++ (if truthy pub.bibtex && !pub.hidden_bib then
        [UIElement.bibtexButton] else [])
  ++ (if expandedAbstractId == some pub.id && truthy pub.abstract then
        [UIElement.abstractPanel (pub.abstract.getD "")] else [])
  ++ (if expandedBibtexId == some pub.id && truthy pub.bibtex
        && !pub.hidden_bib then
        [UIElement.bibtexPanel (pub.bibtex.getD "")] else [])

/-! ### The BibTeX parser (spec §4.1)

The parser module itself (`@/lib/bibtexParser`, function `parseBibTeX`)
is not part of the sources at hand; only its caller is.  It is modelled
below from the spec: scan for entry start markers (`@`, a type token, an
opening brace), capture the entry body up to the matching closing brace
tracking nested depth, split the body on top-level commas (respecting
nested braces and quotes), split each field assignment on the first `=`,
trim, and strip one layer of surrounding braces or quotes; entries whose
braces do not balance before the end of the input are dropped. -/

/-- The parser output record of spec §3: every string field optional,
`year` optional (non-numeric content is treated as absent). -/
structure PublicationRecord where
  id : String
  type : String
  title : Option String
  journal : Option String
  conference : Option String
  description : Option String
  abstract : Option String
  bibtex : Option String
  authors : List Author
  year : Option Int
  hidden_bib : Bool
deriving DecidableEq, Repr

/-- Strip leading and trailing whitespace from a character list. -/
def trimChars (l : List Char) : List Char :=
  ((l.dropWhile Char.isWhitespace).reverse.dropWhile Char.isWhitespace).reverse

/-- Modelled from the spec: split a field body on top-level commas,
respecting nested braces and double quotes (§4.1 algorithm sketch). -/
def splitTopAux (depth : Nat) (inQuote : Bool) (cur : List Char)
    (acc : List (List Char)) : List Char → List (List Char)
  | [] => acc ++ [cur]
  | c :: cs =>
    if inQuote then
      if c = '"' then splitTopAux depth false (cur ++ [c]) acc cs
      else splitTopAux depth true (cur ++ [c]) acc cs
    else if c = '{' then splitTopAux (depth + 1) false (cur ++ [c]) acc cs
    else if c = '}' then splitTopAux (depth - 1) false (cur ++ [c]) acc cs
    else if c = '"' && depth = 0 then splitTopAux depth true (cur ++ [c]) acc cs
    else if c = ',' && depth = 0 then splitTopAux depth false [] (acc ++ [cur]) cs
    else splitTopAux depth false (cur ++ [c]) acc cs

/-- Split an entry body on top-level commas. -/
def splitTop (l : List Char) : List (List Char) := splitTopAux 0 false [] [] l

/-- Modelled from the spec: strip a single layer of surrounding braces
or quotes from a trimmed field value. -/
def stripDelims (l : List Char) : List Char :=
  if 2 ≤ l.length ∧
      ((l.head? = some '{' ∧ l.getLast? = some '}') ∨
        (l.head? = some '"' ∧ l.getLast? = some '"'))
  then l.tail.dropLast else l

/-- Lower-case a character list (field names match case-insensitively). -/
def lowerChars (l : List Char) : List Char := l.map Char.toLower

/-- Modelled from the spec: parse one `name = value` chunk; split on the
first `=`, trim both sides, lower the name, strip value delimiters.  A
chunk with no `=` (such as the residue of a trailing comma) yields no
field. -/
def parseField (chunk : List Char) : Option (String × String) :=
  match chunk.dropWhile (fun c => c ≠ '=') with
  | [] => none
  | _ :: valuePart =>
    some (String.mk (lowerChars (trimChars (chunk.takeWhile (fun c => c ≠ '=')))),
      String.mk (stripDelims (trimChars valuePart)))

/-- Modelled from the spec: split an author field on the literal
conjunction token `and` at word boundaries, trimming each name. -/
def splitAuthorsAux (cur : List Char) (acc : List (List Char)) :
    List Char → List (List Char)
  | ' ' :: 'a' :: 'n' :: 'd' :: ' ' :: rest => splitAuthorsAux [] (acc ++ [cur]) rest
  | c :: cs => splitAuthorsAux (cur ++ [c]) acc cs
  | [] => acc ++ [cur]

/-- Modelled from the spec: the author field split into trimmed names;
an empty author field yields an empty sequence. -/
def parseAuthors (value : String) : List Author :=
  if trimChars value.data = [] then []
  else (splitAuthorsAux [] [] value.data).map
    (fun l => Author.mk (String.mk (trimChars l)))

/-- Modelled from the spec: the year field parsed as an integer;
non-numeric content is treated as absent. -/
def parseYearValue (s : String) : Option Int :=
  let t := trimChars s.data
  if t ≠ [] ∧ t.all Char.isDigit
  then some (Int.ofNat (t.foldl (fun n c => n * 10 + (c.toNat - 48)) 0))
  else none

/-- Modelled from the spec: a marker field value is truthy unless it is
empty, `false` or `0`. -/
def truthyFieldValue (s : String) : Bool :=
  let t := lowerChars (trimChars s.data)
  !(t = [] || t = ['f', 'a', 'l', 's', 'e'] || t = ['0'])

/-- Modelled from the spec: assemble a record from the entry type, the
verbatim entry text and the top-level comma chunks (first chunk is the
citation key, the rest are field assignments). -/
def buildRecord (ty : String) (raw : String) (chunks : List (List Char)) :
    Option PublicationRecord :=
  match chunks with
  | [] => none
  | keyChunk :: fieldChunks =>
    let key := String.mk (trimChars keyChunk)
    if key = "" then none
    else
      let fields := fieldChunks.filterMap parseField
      let get := fun (n : String) =>
        (fields.find? (fun p => p.1 = n)).map Prod.snd
      some {
        id := key
        type := ty
        title := get "title"
        journal := get "journal"
        conference := get "conference"
        description := get "description"
        abstract := get "abstract"
        bibtex := some raw
        authors := match get "author" with
          | some v => parseAuthors v
          | none => []
        year := (get "year").bind parseYearValue
        hidden_bib := match get "hidden_bib" with
          | some v => truthyFieldValue v
          | none => false }

/-- Modelled from the spec: emit the record of a captured entry with
type token `ty` and body `acc`; the verbatim entry text (including
braces) is retained as the `bibtex` field; an entry the builder rejects
is dropped. -/
def emitEntry (ty acc : List Char) : List PublicationRecord :=
  match buildRecord (String.mk (lowerChars ty))
      (String.mk ('@' :: ty ++ '{' :: acc ++ ['}'])) (splitTop acc) with
  | some r => [r]
  | none => []

/-- The scanner mode: outside any entry, reading a type token after an
`@`, or inside an entry body tracking nested brace depth. -/
inductive ScanMode where
  | outside
  | readType (ty : List Char)
  | inEntry (ty : List Char) (depth : Nat) (acc : List Char)
deriving DecidableEq, Repr

/-- Modelled from the spec: one-pass scanner.  Outside an entry,
characters other than `@` are ignored (comments between entries); `@`
starts a type token; a type token followed by `{` opens an entry; the
body is captured until the matching close at depth zero, then the entry
is emitted; an entry whose braces never balance is dropped when the
input ends. -/
def scanAux (m : ScanMode) : List Char → List PublicationRecord
  | [] => []
  | c :: cs =>
    match m with
    | .outside =>
      if c = '@' then scanAux (.readType []) cs
      else scanAux .outside cs
    | .readType ty =>
      if c.isAlpha then scanAux (.readType (ty ++ [c])) cs
      else if c = '{' && ty ≠ [] then scanAux (.inEntry ty 0 []) cs
      else if c = '@' then scanAux (.readType []) cs
      else scanAux .outside cs
    | .inEntry ty depth acc =>
      if c = '{' then scanAux (.inEntry ty (depth + 1) (acc ++ [c])) cs
      else if c = '}' then
        if depth = 0 then emitEntry ty acc ++ scanAux .outside cs
        else scanAux (.inEntry ty (depth - 1) (acc ++ [c])) cs
      else scanAux (.inEntry ty depth (acc ++ [c])) cs

/-- Modelled from the spec: `parseBibTeX` of `@/lib/bibtexParser` —
convert a raw text blob into the sequence of records, in source order. -/
def parseBibTeX (s : String) : List PublicationRecord :=
  scanAux .outside s.data

/-- Spec §8: empty input yields an empty sequence. -/
theorem parseBibTeX_empty : parseBibTeX "" = [] := by decide

/-! ### Helper lemmas -/

theorem includes_empty_query (s : String) : includes s (jsToLower "") = true := by
  simp [includes, jsToLower]

/-- The spec criterion: the query is a case-insensitive substring of the
field. -/
def CaseInsensitiveSubstring (q s : String) : Prop :=
  (jsToLower q).data <:+: (jsToLower s).data

/-- A record whose sole author is named John Smith (spec §8 example). -/
def smithPub : Publication :=
  { id := "p1", type := "article", title := "T", journal := none,
    conference := none, description := none, abstract := none, bibtex := none,
    authors := [Author.mk "John Smith"], year := 2020, hidden_bib := false }

/-- C1: a record satisfies the text-search criterion iff the query is a
case-insensitive substring of its title, of some author name, of the
journal, or of the conference; in particular searching "smith" matches a
record with author "John Smith". -/
theorem matchesSearch_iff_caseInsensitiveSubstring :
    (∀ (pub : Publication) (q : String),
      matchesSearch pub q = true ↔
        (CaseInsensitiveSubstring q pub.title
          ∨ (∃ a ∈ pub.authors, CaseInsensitiveSubstring q a.name)
          ∨ (∃ j, pub.journal = some j ∧ CaseInsensitiveSubstring q j)
          ∨ (∃ c, pub.conference = some c ∧ CaseInsensitiveSubstring q c)))
    ∧ matchesSearch smithPub "smith" = true := by
  constructor
  · intro pub q
    cases hj : pub.journal <;> cases hc : pub.conference <;>
      simp [matchesSearch, includes, optIncludes, CaseInsensitiveSubstring,
        List.any_eq_true, hj, hc, or_assoc]
  · decide

/-- Three concrete records across two years (spec §8 composition test). -/
def pubA : Publication :=
  { id := "a", type := "article", title := "Alpha", journal := some "J1",
    conference := none, description := none, abstract := none, bibtex := none,
    authors := [Author.mk "A One"], year := 2020, hidden_bib := false }

/-- Second record of the concrete dataset, year 2021. -/
def pubB : Publication :=
  { id := "b", type := "article", title := "Beta", journal := none,
    conference := some "C1", description := none, abstract := none,
    bibtex := none, authors := [Author.mk "B Two"], year := 2021,
    hidden_bib := false }

/-- Third record of the concrete dataset, year 2021. -/
def pubC : Publication :=
  { id := "c", type := "misc", title := "Gamma", journal := none,
    conference := none, description := none, abstract := none, bibtex := none,
    authors := [Author.mk "C Three"], year := 2021, hidden_bib := false }

/-- C2: a record appears in the filtered output iff it is in the input
and satisfies all three criteria; consequently a year filter combined
with a query matching none of that year's records yields an empty
result. -/
theorem filteredPublications_mem_iff :
    (∀ (pubs : List Publication) (q : String) (ysel : YearSel)
        (tsel : TypeSel) (pub : Publication),
      pub ∈ filteredPublications pubs q ysel tsel ↔
        pub ∈ pubs ∧ matchesSearch pub q = true ∧
          matchesYear pub ysel = true ∧ matchesType pub tsel = true)
    ∧ (∀ (pubs : List Publication) (q : String) (y : Int) (tsel : TypeSel),
        (∀ p ∈ pubs, p.year = y → matchesSearch p q = false) →
        filteredPublications pubs q (YearSel.year y) tsel = []) := by
  constructor
  · intro pubs q ysel tsel pub
    simp [filteredPublications, List.mem_filter, and_assoc]
  · intro pubs q y tsel h
    rw [filteredPublications, List.filter_eq_nil_iff]
    intro p hp
    by_cases hy : p.year = y
    · simp [h p hp hy]
    · simp [matchesYear, hy]

/-- Witness for C2 at the concrete dataset: year 2021 selected, query
matching only the 2020 record, empty result. -/
theorem filteredPublications_mem_iff_witness :
    filteredPublications [pubA, pubB, pubC] "Alpha" (YearSel.year 2021)
      TypeSel.all = [] :=
  filteredPublications_mem_iff.2 [pubA, pubB, pubC] "Alpha" 2021 TypeSel.all
    (by decide)

/-- C6: the filtered output is a subsequence of the input: a sublist in
order, with multiplicities bounded by the input. -/
theorem filteredPublications_sublist :
    ∀ (pubs : List Publication) (q : String) (ysel : YearSel) (tsel : TypeSel),
      (filteredPublications pubs q ysel tsel).Sublist pubs ∧
        ∀ pub : Publication,
          (filteredPublications pubs q ysel tsel).count pub ≤ pubs.count pub :=
  fun pubs _ _ _ =>
    ⟨List.filter_sublist pubs, fun pub => (List.filter_sublist pubs).count_le pub⟩

/-- C7: one reactive recomputation of the derived lists leaves the
loaded publications sequence unchanged (same records, same order). -/
theorem recompute_preserves_publications :
    ∀ s : ComponentState, (recompute s).publications = s.publications :=
  fun _ => rfl

/-- C10 and the amended C4 share this totality argument: when every
record carries a title, the filter evaluates without throwing. -/
theorem filteredPublicationsOpt_total_of_titled :
    ∀ (pubs : List PublicationOpt) (q : String) (ysel : YearSel)
      (tsel : TypeSel),
      (∀ p ∈ pubs, p.title.isSome = true) →
      (filteredPublicationsOpt pubs q ysel tsel).isSome = true := by
  intro pubs q ysel tsel h
  induction pubs with
  | nil => rfl
  | cons p rest ih =>
    obtain ⟨t, ht⟩ := Option.isSome_iff_exists.mp (h p (by simp))
    have hrest := ih (fun x hx => h x (by simp [hx]))
    obtain ⟨tail, htail⟩ := Option.isSome_iff_exists.mp hrest
    simp [filteredPublicationsOpt, matchesSearchOpt, ht, htail]

/-- Witness for the amended C4: a titled record filters without error. -/
theorem filteredPublicationsOpt_total_of_titled_witness :
    (filteredPublicationsOpt
      [{ id := "p1", type := "article", title := some "T", journal := none,
         conference := none, description := none, abstract := none,
         bibtex := none, authors := [], year := 2020, hidden_bib := false }]
      "q" YearSel.all TypeSel.all).isSome = true :=
  filteredPublicationsOpt_total_of_titled _ "q" YearSel.all TypeSel.all
    (by decide)

/-- A §3 record lacking a title (allowed by the spec data model). -/
def untitledPub : PublicationOpt :=
  { id := "u", type := "article", title := none, journal := some "J",
    conference := none, description := none, abstract := none, bibtex := none,
    authors := [Author.mk "A"], year := 2020, hidden_bib := false }

/-- Counterexample to C4 as stated: over the §3 data model, a record
with an absent title makes the filter evaluation throw (the component
reads `pub.title.toLowerCase()` without optional chaining). -/
theorem filteredPublicationsOpt_throws_on_untitled :
    filteredPublicationsOpt [untitledPub] "" YearSel.all TypeSel.all = none := by
  decide

/-- C10: with the empty query and both selections at "all", filtering a
list in which every record has a title returns the input unchanged. -/
theorem filteredPublicationsOpt_neutral_identity :
    ∀ pubs : List PublicationOpt,
      (∀ p ∈ pubs, p.title.isSome = true) →
      filteredPublicationsOpt pubs "" YearSel.all TypeSel.all = some pubs := by
  intro pubs h
  induction pubs with
  | nil => rfl
  | cons p rest ih =>
    obtain ⟨t, ht⟩ := Option.isSome_iff_exists.mp (h p (by simp))
    have hrest := ih (fun x hx => h x (by simp [hx]))
    simp [filteredPublicationsOpt, matchesSearchOpt, ht, hrest,
      matchesYearOpt, matchesTypeOpt, includes_empty_query]

/-- Witness for C10: a concrete two-record titled dataset is returned
unchanged by the neutral criteria. -/
theorem filteredPublicationsOpt_neutral_identity_witness :
    filteredPublicationsOpt
      [{ id := "p1", type := "article", title := some "T", journal := none,
         conference := none, description := none, abstract := none,
         bibtex := none, authors := [], year := 2020, hidden_bib := false },
       { id := "p2", type := "misc", title := some "U", journal := none,
         conference := some "C", description := none, abstract := none,
         bibtex := none, authors := [Author.mk "A"], year := 2021,
         hidden_bib := true }]
      "" YearSel.all TypeSel.all = some
      [{ id := "p1", type := "article", title := some "T", journal := none,
         conference := none, description := none, abstract := none,
         bibtex := none, authors := [], year := 2020, hidden_bib := false },
       { id := "p2", type := "misc", title := some "U", journal := none,
         conference := some "C", description := none, abstract := none,
         bibtex := none, authors := [Author.mk "A"], year := 2021,
         hidden_bib := true }] :=
  filteredPublicationsOpt_neutral_identity _ (by decide)

/-- C5: a record with `hidden_bib` renders neither the BibTeX toggle
button nor the expanded BibTeX panel, whatever the expansion state; the
BibTeX controls appear only for a record with a (truthy) `bibtex` value
and `hidden_bib` false. -/
theorem renderEntry_bibtex_controls :
    ∀ (pub : Publication) (ea eb : Option String),
      (pub.hidden_bib = true →
        UIElement.bibtexButton ∉ renderEntry pub ea eb ∧
          ∀ s, UIElement.bibtexPanel s ∉ renderEntry pub ea eb)
      ∧ (UIElement.bibtexButton ∈ renderEntry pub ea eb ↔
          truthy pub.bibtex = true ∧ pub.hidden_bib = false)
      ∧ (∀ s, UIElement.bibtexPanel s ∈ renderEntry pub ea eb ↔
          eb = some pub.id ∧ pub.bibtex = some s ∧ s ≠ "" ∧
            pub.hidden_bib = false) := by
  intro pub ea eb
  have hbtn : UIElement.bibtexButton ∈ renderEntry pub ea eb ↔
      truthy pub.bibtex = true ∧ pub.hidden_bib = false := by
    cases hh : pub.hidden_bib <;> simp [renderEntry, hh]
  have hpanel : ∀ s, UIElement.bibtexPanel s ∈ renderEntry pub ea eb ↔
      eb = some pub.id ∧ pub.bibtex = some s ∧ s ≠ "" ∧
        pub.hidden_bib = false := by
    intro s
    cases hh : pub.hidden_bib <;> cases hb : pub.bibtex <;>
      simp [renderEntry, hh, hb, truthy] <;> aesop
  refine ⟨fun hh => ⟨fun hmem => ?_, fun s hmem => ?_⟩, hbtn, hpanel⟩
  · exact absurd (hbtn.mp hmem).2 (by simp [hh])
  · exact absurd ((hpanel s).mp hmem).2.2.2 (by simp [hh])

/-- Witness for C5 at a concrete hidden-BibTeX record. -/
theorem renderEntry_bibtex_controls_witness :
    UIElement.bibtexButton ∉
        renderEntry
          { id := "h", type := "article", title := "T", journal := none,
            conference := none, description := none, abstract := none,
            bibtex := some "@article{h,}", authors := [], year := 2020,
            hidden_bib := true } none (some "h") ∧
      ∀ s, UIElement.bibtexPanel s ∉
        renderEntry
          { id := "h", type := "article", title := "T", journal := none,
            conference := none, description := none, abstract := none,
            bibtex := some "@article{h,}", authors := [], year := 2020,
            hidden_bib := true } none (some "h") :=
  (renderEntry_bibtex_controls _ none (some "h")).1 rfl

/-! ### Order facts about the default string comparison -/

theorem Char.eq_of_toNat_eq {x y : Char} (h : x.toNat = y.toNat) : x = y := by
  have hv : x.val = y.val := UInt32.toNat.inj h
  exact Char.eq_of_val_eq hv

theorem jsStrLtL_asymm : ∀ a b, jsStrLtL a b = true → jsStrLtL b a = false := by
  intro a
  induction a with
  | nil =>
    intro b h
    cases b with
    | nil => simp [jsStrLtL] at h
    | cons y ys => simp [jsStrLtL]
  | cons x xs ih =>
    intro b h
    cases b with
    | nil => simp [jsStrLtL] at h
    | cons y ys =>
      simp only [jsStrLtL] at h ⊢
      by_cases h1 : x.toNat < y.toNat
      · have h2 : ¬y.toNat < x.toNat := by omega
        simp [h1, h2]
      · by_cases h2 : y.toNat < x.toNat
        · simp [h1, h2] at h
        · simp only [h1, h2, if_false, if_neg] at h ⊢
          simpa [h1, h2] using ih ys (by simpa [h1, h2] using h)

theorem jsStrLtL_trans :
    ∀ a b c, jsStrLtL a b = true → jsStrLtL b c = true → jsStrLtL a c = true := by
  intro a
  induction a with
  | nil =>
    intro b c hab hbc
    cases b with
    | nil => simp [jsStrLtL] at hab
    | cons y ys =>
      cases c with
      | nil => simp [jsStrLtL] at hbc
      | cons z zs => simp [jsStrLtL]
  | cons x xs ih =>
    intro b c hab hbc
    cases b with
    | nil => simp [jsStrLtL] at hab
    | cons y ys =>
      cases c with
      | nil => simp [jsStrLtL] at hbc
      | cons z zs =>
        simp only [jsStrLtL] at hab hbc ⊢
        by_cases hxy : x.toNat < y.toNat <;> by_cases hyz : y.toNat < z.toNat
        · have hxz : x.toNat < z.toNat := by omega
          simp [hxz]
        · by_cases hzy : z.toNat < y.toNat
          · simp [hyz, hzy] at hbc
          · have hxz : x.toNat < z.toNat := by omega
            simp [hxz]
        · by_cases hyx : y.toNat < x.toNat
          · simp [hxy, hyx] at hab
          · have hxz : x.toNat < z.toNat := by omega
            simp [hxz]
        · by_cases hyx : y.toNat < x.toNat
          · simp [hxy, hyx] at hab
          · by_cases hzy : z.toNat < y.toNat
            · simp [hyz, hzy] at hbc
            · have hxz1 : ¬x.toNat < z.toNat := by omega
              have hxz2 : ¬z.toNat < x.toNat := by omega
              simp [hxy, hyx] at hab
              simp [hyz, hzy] at hbc
              simpa [hxz1, hxz2] using ih ys zs hab hbc

theorem jsStrLtL_connex :
    ∀ a b, jsStrLtL a b = false → jsStrLtL b a = false → a = b := by
  intro a
  induction a with
  | nil =>
    intro b h1 _
    cases b with
    | nil => rfl
    | cons y ys => simp [jsStrLtL] at h1
  | cons x xs ih =>
    intro b h1 h2
    cases b with
    | nil => simp [jsStrLtL] at h2
    | cons y ys =>
      simp only [jsStrLtL] at h1 h2
      by_cases hxy : x.toNat < y.toNat
      · simp [hxy] at h1
      · by_cases hyx : y.toNat < x.toNat
        · simp [hyx] at h2
        · have hchar : x = y := Char.eq_of_toNat_eq (by omega)
          have htail : xs = ys :=
            ih ys (by simpa [hxy, hyx] using h1) (by simpa [hxy, hyx] using h2)
          rw [hchar, htail]

theorem jsStrLt_of_not_lt_of_ne {a b : String}
    (hle : jsStrLt b a = false) (hne : a ≠ b) : jsStrLt a b = true := by
  by_cases h : jsStrLt a b = true
  · exact h
  · have h1 : jsStrLtL a.data b.data = false := by
      simpa [jsStrLt] using h
    have h2 : a.data = b.data :=
      jsStrLtL_connex _ _ h1 (by simpa [jsStrLt] using hle)
    exact absurd (String.ext h2) hne

instance : IsTotal String (fun a b => jsStrLt b a = false) := by
  constructor
  intro a b
  by_cases h : jsStrLt b a = false
  · exact Or.inl h
  · have hba : jsStrLtL b.data a.data = true := by simpa [jsStrLt] using h
    exact Or.inr (jsStrLtL_asymm _ _ hba)

instance : IsTrans String (fun a b => jsStrLt b a = false) := by
  constructor
  intro a b c hab hbc
  by_cases h : jsStrLt c a = false
  · exact h
  · exfalso
    have hca : jsStrLtL c.data a.data = true := by simpa [jsStrLt] using h
    by_cases hbc2 : jsStrLtL b.data c.data = true
    · have hba : jsStrLtL b.data a.data = true := jsStrLtL_trans _ _ _ hbc2 hca
      simp only [jsStrLt] at hab
      simp [hba] at hab
    · have hb : jsStrLtL b.data c.data = false := by simpa using hbc2
      have heq : b.data = c.data :=
        jsStrLtL_connex _ _ hb (by simpa [jsStrLt] using hbc)
      rw [← heq] at hca
      simp only [jsStrLt] at hab
      simp [hca] at hab

/-- C3: the year options are exactly the distinct years of the loaded
dataset in strictly descending order, and the type options are exactly
the distinct type tags in strictly ascending string order. -/
theorem yearAndTypeOptions :
    ∀ pubs : List Publication,
      ((years pubs).Sorted (· > ·) ∧
        ∀ y : Int, y ∈ years pubs ↔ ∃ p ∈ pubs, p.year = y) ∧
      ((types pubs).Sorted (fun a b => jsStrLt a b = true) ∧
        ∀ t : String, t ∈ types pubs ↔ ∃ p ∈ pubs, p.type = t) := by
  intro pubs
  refine ⟨⟨?_, ?_⟩, ?_, ?_⟩
  · have hs : (years pubs).Sorted (· ≥ ·) := List.sorted_insertionSort _ _
    have hperm :=
      List.perm_insertionSort (α := Int) (· ≥ ·) ((pubs.map Publication.year).dedup)
    have hnd : (years pubs).Nodup := hperm.nodup_iff.mpr (List.nodup_dedup _)
    refine (hs.and hnd).imp ?_
    rintro a b ⟨hge, hne⟩
    exact lt_of_le_of_ne hge (Ne.symm hne)
  · intro y
    have hperm :=
      List.perm_insertionSort (α := Int) (· ≥ ·) ((pubs.map Publication.year).dedup)
    rw [years, hperm.mem_iff, List.mem_dedup, List.mem_map]
  · have hs : (types pubs).Sorted (fun a b => jsStrLt b a = false) :=
      List.sorted_insertionSort _ _
    have hperm :=
      List.perm_insertionSort (α := String) (fun a b => jsStrLt b a = false)
        ((pubs.map Publication.type).dedup)
    have hnd : (types pubs).Nodup := hperm.nodup_iff.mpr (List.nodup_dedup _)
    refine (hs.and hnd).imp ?_
    rintro a b ⟨hle, hne⟩
    exact jsStrLt_of_not_lt_of_ne hle hne
  · intro t
    have hperm :=
      List.perm_insertionSort (α := String) (fun a b => jsStrLt b a = false)
        ((pubs.map Publication.type).dedup)
    rw [types, hperm.mem_iff, List.mem_dedup, List.mem_map]

/-! ### Parser theorems -/

/-- The record of the spec §8 well-formed example entry. -/
def exampleRecord : PublicationRecord :=
  { id := "k1", type := "article", title := some "T", journal := none,
    conference := none, description := none, abstract := none,
    bibtex := some "@article{k1, author={A and B}, year={2020}, title={T}}",
    authors := [Author.mk "A", Author.mk "B"], year := some 2020,
    hidden_bib := false }

/-- C8: parsing the single well-formed entry yields exactly one record,
with citation key k1, the authors A and B in order, year 2020 and
title T. -/
theorem parseBibTeX_single_wellformed :
    parseBibTeX "@article{k1, author={A and B}, year={2020}, title={T}}" =
        [exampleRecord] ∧
      exampleRecord.id = "k1" ∧
      exampleRecord.authors = [Author.mk "A", Author.mk "B"] ∧
      exampleRecord.year = some 2020 ∧ exampleRecord.title = some "T" :=
  ⟨by decide, rfl, rfl, rfl, rfl⟩

/-- Locate the closing brace matching an already-open entry at the given
nesting depth: the body before the close and the rest after it, or
`none` when the braces never balance before the end of the input. -/
def splitAtClose (depth : Nat) : List Char → Option (List Char × List Char)
  | [] => none
  | c :: cs =>
    if c = '{' then
      match splitAtClose (depth + 1) cs with
      | some (b, r) => some (c :: b, r)
      | none => none
    else if c = '}' then
      if depth = 0 then some ([], cs)
      else
        match splitAtClose (depth - 1) cs with
        | some (b, r) => some (c :: b, r)
        | none => none
    else
      match splitAtClose depth cs with
      | some (b, r) => some (c :: b, r)
      | none => none

theorem splitAtClose_append :
    ∀ (l : List Char) (depth : Nat) (b r x : List Char),
      splitAtClose depth l = some (b, r) →
      splitAtClose depth (l ++ x) = some (b, r ++ x) := by
  intro l
  induction l with
  | nil => intro depth b r x h; simp [splitAtClose] at h
  | cons c cs ih =>
    intro depth b r x h
    simp only [splitAtClose, List.cons_append, List.append_eq] at h ⊢
    by_cases hc : c = '{'
    · simp only [hc, if_true] at h ⊢
      cases hrec : splitAtClose (depth + 1) cs with
      | none => rw [hrec] at h; simp at h
      | some p =>
        rw [hrec] at h
        obtain ⟨hb, hr⟩ := Prod.mk.injEq .. ▸ Option.some.inj h
        rw [ih (depth + 1) p.1 p.2 x (by rw [hrec])]
        simp [← hb, ← hr]
    · by_cases hc2 : c = '}'
      · simp only [hc, hc2, if_false, if_true] at h ⊢
        by_cases hd : depth = 0
        · simp only [hd, if_true] at h ⊢
          obtain ⟨hb, hr⟩ := Prod.mk.injEq .. ▸ Option.some.inj h
          simp [← hb, ← hr]
        · simp only [hd, if_false] at h ⊢
          cases hrec : splitAtClose (depth - 1) cs with
          | none => rw [hrec] at h; simp at h
          | some p =>
            rw [hrec] at h
            obtain ⟨hb, hr⟩ := Prod.mk.injEq .. ▸ Option.some.inj h
            rw [ih (depth - 1) p.1 p.2 x (by rw [hrec])]
            simp [← hb, ← hr]
      · simp only [hc, hc2, if_false] at h ⊢
        cases hrec : splitAtClose depth cs with
        | none => rw [hrec] at h; simp at h
        | some p =>
          rw [hrec] at h
          obtain ⟨hb, hr⟩ := Prod.mk.injEq .. ▸ Option.some.inj h
          rw [ih depth p.1 p.2 x (by rw [hrec])]
          simp [← hb, ← hr]

theorem scanAux_outside_at (cs : List Char) :
    scanAux .outside ('@' :: cs) = scanAux (.readType []) cs := by
  simp [scanAux]

theorem scanAux_outside_skip :
    ∀ (sep l : List Char), '@' ∉ sep →
      scanAux .outside (sep ++ l) = scanAux .outside l := by
  intro sep
  induction sep with
  | nil => intro l _; rfl
  | cons c cs ih =>
    intro l h
    have hc : ¬c = '@' := fun he => h (he ▸ List.mem_cons_self c cs)
    have hcs : '@' ∉ cs := fun hm => h (List.mem_cons_of_mem c hm)
    rw [List.cons_append]
    simp only [scanAux, hc, if_false]
    exact ih l hcs

theorem scanAux_readType_token :
    ∀ (ty : List Char) (acc l : List Char), (∀ c ∈ ty, c.isAlpha = true) →
      scanAux (.readType acc) (ty ++ l) = scanAux (.readType (acc ++ ty)) l := by
  intro ty
  induction ty with
  | nil => intro acc l _; simp
  | cons c cs ih =>
    intro acc l h
    have hc : c.isAlpha = true := h c (List.mem_cons_self c cs)
    rw [List.cons_append]
    simp only [scanAux, hc, if_true]
    rw [ih (acc ++ [c]) l (fun d hd => h d (List.mem_cons_of_mem c hd))]
    simp

theorem scanAux_readType_open (ty cs : List Char) (h : ty ≠ []) :
    scanAux (.readType ty) ('{' :: cs) = scanAux (.inEntry ty 0 []) cs := by
  have halpha : ('{' : Char).isAlpha = false := by decide
  simp [scanAux, halpha, h]

theorem scanAux_inEntry_close :
    ∀ (l ty : List Char) (depth : Nat) (acc b r : List Char),
      splitAtClose depth l = some (b, r) →
      scanAux (.inEntry ty depth acc) l =
        emitEntry ty (acc ++ b) ++ scanAux .outside r := by
  intro l
  induction l with
  | nil => intro ty depth acc b r h; simp [splitAtClose] at h
  | cons c cs ih =>
    intro ty depth acc b r h
    simp only [splitAtClose, List.append_eq] at h
    by_cases hc : c = '{'
    · rw [if_pos hc] at h
      cases hrec : splitAtClose (depth + 1) cs with
      | none => rw [hrec] at h; simp at h
      | some p =>
        rw [hrec] at h
        simp only at h
        obtain ⟨hb, hr⟩ := Prod.mk.injEq .. ▸ Option.some.inj h
        subst hc
        simp only [scanAux, if_pos rfl]
        rw [ih ty (depth + 1) (acc ++ ['{']) p.1 p.2 hrec, ← hb, ← hr]
        simp
    · by_cases hc2 : c = '}'
      · rw [if_neg hc, if_pos hc2] at h
        by_cases hd : depth = 0
        · rw [if_pos hd] at h
          obtain ⟨hb, hr⟩ := Prod.mk.injEq .. ▸ Option.some.inj h
          subst hc2 hd
          simp only [scanAux, if_neg (by decide : ¬('}' : Char) = '{'), if_pos rfl]
          rw [← hb, ← hr]
          simp
        · rw [if_neg hd] at h
          cases hrec : splitAtClose (depth - 1) cs with
          | none => rw [hrec] at h; simp at h
          | some p =>
            rw [hrec] at h
            simp only at h
            obtain ⟨hb, hr⟩ := Prod.mk.injEq .. ▸ Option.some.inj h
            subst hc2
            simp only [scanAux, if_neg (by decide : ¬('}' : Char) = '{'), if_pos rfl,
              if_neg hd]
            rw [ih ty (depth - 1) (acc ++ ['}']) p.1 p.2 hrec, ← hb, ← hr]
            simp
      · rw [if_neg hc, if_neg hc2] at h
        cases hrec : splitAtClose depth cs with
        | none => rw [hrec] at h; simp at h
        | some p =>
          rw [hrec] at h
          simp only at h
          obtain ⟨hb, hr⟩ := Prod.mk.injEq .. ▸ Option.some.inj h
          simp only [scanAux, if_neg hc, if_neg hc2]
          rw [ih ty depth (acc ++ [c]) p.1 p.2 hrec, ← hb, ← hr]
          simp

theorem scanAux_inEntry_noClose :
    ∀ (l ty : List Char) (depth : Nat) (acc : List Char),
      splitAtClose depth l = none →
      scanAux (.inEntry ty depth acc) l = [] := by
  intro l
  induction l with
  | nil => intro ty depth acc _; rfl
  | cons c cs ih =>
    intro ty depth acc h
    simp only [splitAtClose] at h
    by_cases hc : c = '{'
    · rw [if_pos hc] at h
      cases hrec : splitAtClose (depth + 1) cs with
      | some p => rw [hrec] at h; simp at h
      | none =>
        subst hc
        simp only [scanAux, if_pos rfl]
        exact ih ty (depth + 1) (acc ++ ['{']) hrec
    · by_cases hc2 : c = '}'
      · rw [if_neg hc, if_pos hc2] at h
        by_cases hd : depth = 0
        · rw [if_pos hd] at h; simp at h
        · rw [if_neg hd] at h
          cases hrec : splitAtClose (depth - 1) cs with
          | some p => rw [hrec] at h; simp at h
          | none =>
            subst hc2
            simp only [scanAux, if_neg (by decide : ¬('}' : Char) = '{'), if_pos rfl,
              if_neg hd]
            exact ih ty (depth - 1) (acc ++ ['}']) hrec
      · rw [if_neg hc, if_neg hc2] at h
        cases hrec : splitAtClose depth cs with
        | some p => rw [hrec] at h; simp at h
        | none =>
          simp only [scanAux, if_neg hc, if_neg hc2]
          exact ih ty depth (acc ++ [c]) hrec

/-- Counterexample to C9 as stated: an input consisting of one malformed
entry missing its closing brace followed by one well-formed entry yields
zero records, not one — under the spec's balance-match-to-end-of-input
failure semantics, the unbalanced first entry swallows the rest. -/
theorem parseBibTeX_leading_unbalanced_swallows :
    parseBibTeX "@article\x7bbad, title=\x7bX\x7d @article\x7bk1, title=\x7bT\x7d\x7d" = [] := by
  decide

/-- Amended C9: for every input made of a well-formed entry (any alpha
type token, any body whose braces balance exactly at the end, building a
record), then any separator without an at-sign, then a malformed entry
whose braces never balance before the end of the input, parsing yields
exactly the record of the well-formed entry. -/
theorem parseBibTeX_skips_trailing_unbalanced :
    ∀ (tyG bodyG inner sep tyM mbody : List Char) (rec : PublicationRecord),
      (∀ c ∈ tyG, c.isAlpha = true) → tyG ≠ [] →
      splitAtClose 0 bodyG = some (inner, []) →
      emitEntry tyG inner = [rec] →
      '@' ∉ sep →
      (∀ c ∈ tyM, c.isAlpha = true) → tyM ≠ [] →
      splitAtClose 0 mbody = none →
      parseBibTeX (String.mk
          (('@' :: (tyG ++ '{' :: bodyG)) ++
            (sep ++ ('@' :: (tyM ++ '{' :: mbody))))) = [rec] := by
  intro tyG bodyG inner sep tyM mbody rec htyG htyGne hsplit hemit hsep htyM htyMne hm
  show scanAux .outside _ = _
  rw [List.cons_append, scanAux_outside_at, List.append_assoc, List.cons_append,
    scanAux_readType_token tyG [] _ htyG, List.nil_append,
    scanAux_readType_open tyG _ htyGne,
    scanAux_inEntry_close _ tyG 0 [] inner _
      (splitAtClose_append bodyG 0 inner [] _ hsplit),
    List.nil_append, hemit, List.nil_append,
    scanAux_outside_skip sep _ hsep, scanAux_outside_at,
    scanAux_readType_token tyM [] _ htyM, List.nil_append,
    scanAux_readType_open tyM _ htyMne,
    scanAux_inEntry_noClose mbody tyM 0 [] hm]
  rfl

/-- Witness for the amended C9 at the spec's representative input: the
well-formed §8 entry, a blank separator, then an entry missing its
closing brace; the result is exactly the well-formed record. -/
theorem parseBibTeX_skips_trailing_unbalanced_witness :
    parseBibTeX (String.mk
        (('@' :: ("article".data ++ '{' ::
            "k1, author=\x7bA and B\x7d, year=\x7b2020\x7d, title=\x7bT\x7d\x7d".data)) ++
          (" ".data ++ ('@' :: ("misc".data ++ '{' :: "k2, ".data))))) =
      [exampleRecord] :=
  parseBibTeX_skips_trailing_unbalanced "article".data
    "k1, author=\x7bA and B\x7d, year=\x7b2020\x7d, title=\x7bT\x7d\x7d".data
    "k1, author={A and B}, year={2020}, title={T}".data
    " ".data "misc".data "k2, ".data exampleRecord
    (by decide) (by decide) (by decide) (by decide) (by decide) (by decide)
    (by decide) (by decide)
